import Mathlib

/-!
Shallow embedding of the lazyrss terminal RSS reader, covering the storage
layer (`internal/db`, `src/unnamed/part_002`), the fetch/merge step
(`internal/rss/fetcher.go`), the OPML codec (`internal/rss/opml.go`) and the
interactive controller plus markdown pipeline (`internal/ui/model.go`).

SQLite rows are modelled as Lean structures, tables as lists of rows in
insertion order, timestamps as integers.  The `database/sql` handle and the
terminal library are external collaborators; only their behaviour as used by
this repository is modelled.
-/

namespace LazyRSS

/-- An `entries` table row.  Schema (createTables): `id INTEGER PRIMARY KEY`,
`feed_id`, `title`, `link TEXT UNIQUE NOT NULL`, `description`, `content`,
`published_at`, `read BOOLEAN DEFAULT 0`.  The autoincrement `id` plays no
role in any claim and is omitted; a table is a list of rows in insertion
order. -/
structure Entry where
  feedID : Int
  title : String
  link : String
  description : String
  content : String
  publishedAt : Int
  read : Bool
deriving Repr, DecidableEq

/-- Links stored in an entries table, in row order. -/
def entryLinks (table : List Entry) : List String :=
  table.map Entry.link

/-- Whether some stored row already carries this link (the `link TEXT UNIQUE`
constraint consulted by `INSERT OR IGNORE`). -/
def linkPresent (table : List Entry) (l : String) : Bool :=
  table.any (fun e => e.link == l)

/-- One `INSERT OR IGNORE INTO entries (feed_id, title, link, description,
content, published_at) VALUES (...)` executed by `SaveEntries`: if a row with
the same link exists the statement is ignored, otherwise a fresh row is
appended (`read` takes its schema default `0`). -/
def insertEntryRow (table : List Entry) (feedID : Int) (e : Entry) : List Entry :=
  if linkPresent table e.link then table
  else table ++ [{ e with feedID := feedID, read := false }]

/-- `db.SaveEntries(feedID, entries)`: inside one transaction, run the
insert-or-ignore statement for every entry in order.  The transaction commits
(no error) whenever the individual statements succeed, which the model's pure
statements always do. -/
def saveEntries (table : List Entry) (feedID : Int) (es : List Entry) : List Entry :=
  es.foldl (fun acc e => insertEntryRow acc feedID e) table

/-- A remote feed item as surfaced by the gofeed parser in
`rss.SyncFeed`: title, link, description, content and the two optional
parsed timestamps. -/
structure Item where
  title : String
  link : String
  description : String
  content : String
  publishedParsed : Option Int
  updatedParsed : Option Int
deriving Repr, DecidableEq

/-- The entry built from one remote item in `rss.SyncFeed`: `publishedAt`
prefers the published timestamp, then the updated timestamp, then the
current time `now`. -/
def itemToEntry (now : Int) (it : Item) : Entry :=
  { feedID := 0
    title := it.title
    link := it.link
    description := it.description
    content := it.content
    publishedAt :=
      match it.publishedParsed with
      | some p => p
      | none =>
        match it.updatedParsed with
        | some u => u
        | none => now
    read := false }

/-- `rss.SyncFeed(feedID, url)` after a fetch that returned `items`: map the
items to entries and hand them to `db.SaveEntries`.  `now` is the wall clock
read for items lacking both timestamps. -/
def syncFeedMerge (table : List Entry) (feedID : Int) (items : List Item) (now : Int) :
    List Entry :=
  saveEntries table feedID (items.map (itemToEntry now))

/-- A `feeds` table row.  Schema: `id INTEGER PRIMARY KEY`, `url TEXT UNIQUE
NOT NULL`, `title`, `description`, `created_at`, `last_read_at`, `position
INTEGER DEFAULT 0`. -/
structure Feed where
  id : Int
  url : String
  title : String
  description : String
  lastReadAt : Int
  position : Int
deriving Repr, DecidableEq

/-- One `UPDATE feeds SET position = ? WHERE id = ?` statement. -/
def setPos (t : List Feed) (i : Int) (p : Int) : List Feed :=
  t.map fun f => if f.id = i then { f with position := p } else f

/-- `db.SwapFeedPositions(idA, posA, idB, posB)`: a single transaction that
sets feed `idA`'s position to `posB` and then feed `idB`'s position to
`posA`. -/
def swapFeedPositions (t : List Feed) (idA posA idB posB : Int) : List Feed :=
  setPos (setPos t idA posB) idB posA

/-- The stored position of feed `i`, if a row with that id exists. -/
def lookupPos (t : List Feed) (i : Int) : Option Int :=
  (t.find? (fun f => f.id == i)).map Feed.position

/-- The alt+up / alt+down handler in `ui.Update` (model.go).  The selected
feed `a` sits at list index `idx` and its neighbour `b` at `nIdx` (`idx-1`
for move-up, `idx+1` for move-down).  Both positions are read from the
loaded feed rows; if they are equal the handler substitutes the list
indices (`posA, posB = idx, nIdx`); it then calls
`db.SwapFeedPositions(a, posA, b, posB)`. -/
def reorderMove (t : List Feed) (a b : Int) (idx nIdx : Int) : List Feed :=
  let posA := (lookupPos t a).getD 0
  let posB := (lookupPos t b).getD 0
  let pq : Int × Int := if posA = posB then (idx, nIdx) else (posA, posB)
  swapFeedPositions t a pq.1 b pq.2

/-- `SELECT COALESCE(MAX(position), -1) FROM feeds` in `db.AddFeed`. -/
def maxPosition : List Feed → Int
  | [] => -1
  | f :: fs => fs.foldl (fun acc g => max acc g.position) f.position

/-- Whether a feed with this url is already stored (the `url TEXT UNIQUE`
constraint consulted by `INSERT OR IGNORE`). -/
def urlExists (t : List Feed) (url : String) : Bool :=
  t.any (fun f => f.url == url)

/-- The row `db.AddFeed` inserts: the given url/title/description and
position `COALESCE(MAX(position), -1) + 1`.  `newId` stands for the value
the autoincrement primary key assigns; `last_read_at` takes its schema
default (the epoch, modelled as 0). -/
def newFeedRow (t : List Feed) (newId : Int) (url title desc : String) : Feed :=
  { id := newId
    url := url
    title := title
    description := desc
    lastReadAt := 0
    position := maxPosition t + 1 }

/-- `db.AddFeed(url, title, desc)`: `INSERT OR IGNORE INTO feeds (url, title,
description, position) VALUES (?, ?, ?, maxPos+1)` — a no-op when the url is
already stored. -/
def addFeed (t : List Feed) (newId : Int) (url title desc : String) : List Feed :=
  if urlExists t url then t else t ++ [newFeedRow t newId url title desc]

/-- The `ORDER BY f.position ASC, f.title ASC` comparison used by
`db.GetFeeds` to produce the display order of the feeds list. -/
def feedLE (f g : Feed) : Prop :=
  f.position < g.position ∨ (f.position = g.position ∧ f.title ≤ g.title)

instance : DecidablePred fun p : Feed × Feed => feedLE p.1 p.2 := by
  intro p; unfold feedLE; infer_instance

/-! ### OPML codec (`internal/rss/opml.go`) -/

/-- An OPML `outline` element: the attributes decoded by `ParseOPML` plus the
nested outlines. -/
inductive Outline where
  | mk (text title typ xmlUrl htmlUrl : String) (outlines : List Outline)

/-- The `xmlUrl` attribute of an outline. -/
def Outline.xmlUrl : Outline → String
  | .mk _ _ _ u _ _ => u

/-- The `type` attribute of an outline. -/
def Outline.typ : Outline → String
  | .mk _ _ t _ _ _ => t

/-- The nested outlines of an outline. -/
def Outline.outlines : Outline → List Outline
  | .mk _ _ _ _ _ os => os

/-- The keep condition in `Flatten`'s traversal:
`out.Type == "rss" || out.XMLURL != ""`. -/
def keepOutline (o : Outline) : Bool :=
  o.typ == "rss" || o.xmlUrl != ""

mutual

/-- One step of `Flatten`'s `traverse`: append the outline itself when the
keep condition holds, then descend into its nested outlines. -/
def flattenOutline : Outline → List Outline
  | .mk text title typ xmlUrl htmlUrl os =>
    (if keepOutline (.mk text title typ xmlUrl htmlUrl os)
      then [Outline.mk text title typ xmlUrl htmlUrl os] else [])
      ++ flattenOutlines os

/-- `traverse` over a sibling list, in order.  (`Flatten` guards the
recursive call with `len(out.Outlines) > 0`, which is the same as always
recursing since traversing an empty list appends nothing.) -/
def flattenOutlines : List Outline → List Outline
  | [] => []
  | o :: os => flattenOutline o ++ flattenOutlines os

end

/-- `(*OPML).Flatten` applied to the document body's outline list. -/
def Flatten (body : List Outline) : List Outline :=
  flattenOutlines body

mutual

/-- Depth-first (preorder) listing of a single outline and its descendants:
the order in which `Flatten`'s `traverse` visits nodes. -/
def preorderOutline : Outline → List Outline
  | .mk text title typ xmlUrl htmlUrl os =>
    Outline.mk text title typ xmlUrl htmlUrl os :: preorderOutlines os

/-- Depth-first listing of a sibling list. -/
def preorderOutlines : List Outline → List Outline
  | [] => []
  | o :: os => preorderOutline o ++ preorderOutlines os

end

/-! ### Markdown link tokenizer / rehydrator (`ui.renderMarkdown`) -/

/-- The `linkInfo` record held in `renderMarkdown`'s side table: display
text, target url, and whether the construct was an image. -/
structure LinkInfo where
  text : String
  url : String
  isImage : Bool
deriving Repr, DecidableEq

/-- RE2's `\s` class: `[\t\n\f\r ]`. -/
def isSpaceChar (c : Char) : Bool :=
  c == ' ' || c == '\t' || c == '\n' || c == '\x0c' || c == '\r'

/-- A character admissible in the url group `[^\s\)]`. -/
def isUrlChar (c : Char) : Bool :=
  !isSpaceChar c && c != ')'

/-- The optional title-and-close tail `\s+["'][^"']*["']\s*\)` of the main
regex: at least one whitespace, a quote character, a run free of both quote
characters, another quote character, optional whitespace, and the closing
parenthesis.  Returns the remaining input on success. -/
def matchTitleClose (cs : List Char) : Option (List Char) :=
  let ws := cs.takeWhile isSpaceChar
  if ws.isEmpty then none
  else
    match cs.drop ws.length with
    | q :: r1 =>
      if q == '"' || q == '\'' then
        let body := r1.takeWhile (fun c => c != '"' && c != '\'')
        match r1.drop body.length with
        | q2 :: r2 =>
          if q2 == '"' || q2 == '\'' then
            match r2.dropWhile isSpaceChar with
            | ')' :: r3 => some r3
            | _ => none
          else none
        | [] => none
      else none
    | [] => none

/-- The untitled close `\s*\)`. -/
def matchPlainClose (cs : List Char) : Option (List Char) :=
  match cs.dropWhile isSpaceChar with
  | ')' :: r => some r
  | _ => none

/-- Close the parenthesised target: the regex prefers consuming the optional
quoted title and backtracks to the plain close when that fails. -/
def matchClose (cs : List Char) : Option (List Char) :=
  match matchTitleClose cs with
  | some r => some r
  | none => matchPlainClose cs

/-- The bracketed-text-and-target core `\[([^\]]*)\]\(\s*([^\s\)]+)` of the
main regex followed by `matchClose`, anchored at the start of `cs`.  Returns
the text group, the url group and the remaining input.  Both character
classes are disjoint from what follows them, so the greedy runs need no
backtracking. -/
def matchBody (cs : List Char) : Option ((List Char × List Char) × List Char) :=
  match cs with
  | '[' :: r1 =>
    let text := r1.takeWhile (fun c => c != ']')
    match r1.drop text.length with
    | ']' :: '(' :: r2 =>
      let r3 := r2.dropWhile isSpaceChar
      let url := r3.takeWhile isUrlChar
      if url.isEmpty then none
      else
        match matchClose (r3.drop url.length) with
        | some r4 => some ((text, url), r4)
        | none => none
    | _ => none
  | _ => none

/-- The optional image marker `(!)?`: greedily consume a leading `!`,
backtracking when the rest of the pattern then fails. -/
def matchBang (cs : List Char) : Option ((Bool × (List Char × List Char)) × List Char) :=
  match cs with
  | '!' :: r =>
    match matchBody r with
    | some (tu, rest) => some ((true, tu), rest)
    | none => (matchBody cs).map (fun (tu, rest) => ((false, tu), rest))
  | _ => (matchBody cs).map (fun (tu, rest) => ((false, tu), rest))

/-- A full anchored match of `renderMarkdown`'s main regex
`(\\)?(!)?\[([^\]]*)\]\(\s*([^\s\)]+)(?:\s+["'][^"']*["'])?\s*\)`:
the optional escape marker `(\\)?` is consumed greedily (with backtracking),
then `matchBang`.  Returns (escape matched, image marker matched,
text group, url group) and the remaining input. -/
def matchConstruct (cs : List Char) :
    Option ((Bool × Bool × List Char × List Char) × List Char) :=
  match cs with
  | '\\' :: r =>
    match matchBang r with
    | some ((b, (t, u)), rest) => some ((true, b, t, u), rest)
    | none => (matchBang cs).map (fun ((b, (t, u)), rest) => ((false, b, t, u), rest))
  | _ => (matchBang cs).map (fun ((b, (t, u)), rest) => ((false, b, t, u), rest))

/-- The placeholder `fmt.Sprintf("GLAMOURTOKEN%dURL", tokenCount)`. -/
def tokenName (n : Nat) : String :=
  "GLAMOURTOKEN" ++ toString n ++ "URL"

/-- The replacement closure passed to `ReplaceAllStringFunc`: build the
token for match number `n` and record display text (defaulting to "Image"
for images and "Link" for links when the text group is empty), target url
and the image flag.  The `len(submatch) < 5` guard in the source is dead —
this regex always yields the whole match plus its four groups — and is not
modelled.  Note the closure never consults the escape-marker group. -/
def tokenFor (bang : Bool) (text url : List Char) (n : Nat) : String × LinkInfo :=
  let text0 := String.mk text
  let textD :=
    if text0 == "" && bang then "Image"
    else if text0 == "" then "Link"
    else text0
  (tokenName n, { text := textD, url := String.mk url, isImage := bang })

/-- `re.ReplaceAllStringFunc` over the main regex: scan left to right; at a
match emit the token and record it in the side table (modelled as an
insertion-ordered association list standing for the Go map), then continue
after the match; otherwise copy one character.  `fuel` bounds the recursion
and is always called with at least the input length, which suffices since
every step consumes at least one character. -/
def tokenizeAux : Nat → Nat → List Char → List Char × List (String × LinkInfo)
  | 0, _, cs => (cs, [])
  | _ + 1, _, [] => ([], [])
  | fuel + 1, count, c :: rest =>
    match matchConstruct (c :: rest) with
    | some ((_, bang, text, url), r) =>
      let (tok, info) := tokenFor bang text url count
      let (outRest, tbl) := tokenizeAux fuel (count + 1) r
      (tok.toList ++ outRest, (tok, info) :: tbl)
    | none =>
      let (outRest, tbl) := tokenizeAux fuel count rest
      (c :: outRest, tbl)

/-- The tokenize stage of `renderMarkdown`: replace every link/image match
by its placeholder and collect the side table. -/
def tokenize (md : String) : String × List (String × LinkInfo) :=
  let (cs, tbl) := tokenizeAux md.toList.length 0 md.toList
  (String.mk cs, tbl)

/-- An anchored match of the pre-processing regex
`\[!\[([^\]]*)\]\([^)]+\)\]\(([^)]+)\)` (a linked image): returns the alt
text group, the outer link url group and the remaining input. -/
def matchLinkedImg (cs : List Char) : Option ((List Char × List Char) × List Char) :=
  match cs with
  | '[' :: '!' :: '[' :: r1 =>
    let alt := r1.takeWhile (fun c => c != ']')
    match r1.drop alt.length with
    | ']' :: '(' :: r2 =>
      let inner := r2.takeWhile (fun c => c != ')')
      if inner.isEmpty then none
      else
        match r2.drop inner.length with
        | ')' :: ']' :: '(' :: r3 =>
          let outer := r3.takeWhile (fun c => c != ')')
          if outer.isEmpty then none
          else
            match r3.drop outer.length with
            | ')' :: r4 => some ((alt, outer), r4)
            | _ => none
        | _ => none
    | _ => none
  | _ => none

/-- `reLinkedImg.ReplaceAllString(md, "![$1]($2)")` scanning, fuelled like
`tokenizeAux`: each linked image `[![alt](imgURL)](linkURL)` is rewritten to
`![alt](linkURL)`. -/
def normalizeAux : Nat → List Char → List Char
  | 0, cs => cs
  | _ + 1, [] => []
  | fuel + 1, c :: rest =>
    match matchLinkedImg (c :: rest) with
    | some ((alt, outer), r) =>
      '!' :: '[' :: (alt ++ ']' :: '(' :: outer ++ ')' :: normalizeAux fuel r)
    | none => c :: normalizeAux fuel rest

/-- The compound image-link normalisation pass that opens `renderMarkdown`. -/
def normalizeLinkedImages (md : String) : String :=
  String.mk (normalizeAux md.toList.length md.toList)

/-- The OSC 8 hyperlink built for one side-table record during rehydration:
images get the visible "[img] " prefix, and `style` stands for the lipgloss
blue-underline styling of the display text. -/
def osc8Link (style : String → String) (info : LinkInfo) : String :=
  let displayText := if info.isImage then "[img] " ++ info.text else info.text
  "\x1b]8;;" ++ info.url ++ "\x1b\\" ++ style displayText ++ "\x1b]8;;\x1b\\"

/-- The rehydration loop: `strings.ReplaceAll` each surviving placeholder
with its hyperlink sequence.  The Go map is iterated in unspecified order;
the placeholders are pairwise non-overlapping strings, so the fold over the
recorded order models any iteration order. -/
def rehydrate (style : String → String) (rendered : String)
    (links : List (String × LinkInfo)) : String :=
  links.foldl (fun acc ti => acc.replace ti.1 (osc8Link style ti.2)) rendered

/-- `strings.TrimSpace`: drop whitespace from both ends. -/
def goTrimSpace (s : String) : String :=
  String.mk (((s.toList.dropWhile Char.isWhitespace).reverse.dropWhile
    Char.isWhitespace).reverse)

/-- `ui.renderMarkdown` for an available renderer (the `m.renderer == nil`
early return concerns only a window-size message never having arrived and is
outside every claim): normalise linked images, tokenize, call the generic
glamour renderer `render` on the tokenized text; if the renderer errors,
return `md` — which at that point holds the normalised text — otherwise
rehydrate and trim.  `render` and `style` stand for the external glamour and
lipgloss collaborators. -/
def renderMarkdown (render : String → Except Unit String)
    (style : String → String) (md : String) : String :=
  let md1 := normalizeLinkedImages md
  let (processedMD, links) := tokenize md1
  match render processedMD with
  | .error _ => md1
  | .ok rendered => goTrimSpace (rehydrate style rendered links)

/-! ### The interactive controller (`ui.Model` / `ui.Update`) -/

/-- An entries-pane item: the entry plus the feed's `lastReadAt` snapshot
captured before the watermark update. -/
structure EntryItem where
  entry : Entry
  feedLastReadAt : Int
deriving Repr, DecidableEq

/-- The slice of a `bubbles` list widget the controller manipulates: its
items and the cursor (selection index).  `SetItems` replaces the items and
leaves the cursor where it is; `Select` moves the cursor.  (The widget is an
external collaborator; this is the behaviour of the two calls the
controller makes.) -/
structure ListModel (α : Type) where
  items : List α
  cursor : Nat
deriving Repr, DecidableEq

/-- `list.Model.SetItems`. -/
def setItems {α : Type} (l : ListModel α) (xs : List α) : ListModel α :=
  { l with items := xs }

/-- `list.Model.Select`. -/
def selectIndex {α : Type} (l : ListModel α) (i : Nat) : ListModel α :=
  { l with cursor := i }

/-- `list.Model.SelectedItem`: the item under the cursor, if any. -/
def selectedItem {α : Type} (l : ListModel α) : Option α :=
  l.items.get? l.cursor

/-- The three panes of the main view. -/
inductive Pane where
  | feeds
  | entries
  | content
deriving Repr, DecidableEq

/-- The fields of `ui.Model` that the message handlers under scrutiny read
or write: pane focus, the two list widgets, the content viewport text, the
current feed, the loading flag, the first-load latch and the pending-sync
counter. -/
structure UIModel where
  activePane : Pane
  feedsList : ListModel Feed
  entriesList : ListModel EntryItem
  viewportContent : String
  currentFeed : Feed
  loading : Bool
  initialLoadDone : Bool
  syncPending : Int
deriving Repr, DecidableEq

/-- The commands the modelled handlers can return for later execution. -/
inductive Cmd where
  | loadFeeds
  | loadEntries (f : Feed)
  | viewEntry (e : Entry)
  | syncFeedJob (f : Feed)
deriving Repr, DecidableEq

/-- The message produced by `loadFeeds`: the freshly listed feeds and the
fixed index `-1`. -/
def loadFeedsMsg (feeds : List Feed) : List Feed × Int :=
  (feeds, -1)

/-- The `feedsMsg` arm of `ui.Update`: `SetItems(msg.items)`; `Select` only
when `0 <= msg.index < len(msg.items)`; clear `loading`; and only when the
very first load lands with a non-empty list, latch `initialLoadDone`, adopt
the selected feed as current and dispatch its entries load. -/
def handleFeedsMsg (m : UIModel) (items : List Feed) (index : Int) :
    UIModel × Option Cmd :=
  let fl0 := setItems m.feedsList items
  let fl := if 0 ≤ index ∧ index < (items.length : Int)
    then selectIndex fl0 index.toNat else fl0
  let m1 := { m with feedsList := fl, loading := false }
  if ¬m1.initialLoadDone ∧ items.length > 0 then
    let m2 := { m1 with initialLoadDone := true }
    match selectedItem m2.feedsList with
    | some f => ({ m2 with currentFeed := f }, some (Cmd.loadEntries f))
    | none => (m2, none)
  else (m1, none)

/-- The `entriesMsg` arm of `ui.Update`: wrap each entry with the snapshot
watermark, `SetItems` on the entries list, clear `loading`, and when the
list is non-empty dispatch `viewEntry` for the selected item.  The message
carries no feed identifier and the handler consults neither `currentFeed`
nor any other selection context. -/
def handleEntriesMsg (m : UIModel) (entries : List Entry) (lastReadAt : Int) :
    UIModel × Option Cmd :=
  let items := entries.map (fun e => EntryItem.mk e lastReadAt)
  let m1 := { m with entriesList := setItems m.entriesList items, loading := false }
  match if items.length > 0 then selectedItem m1.entriesList else none with
  | some i => (m1, some (Cmd.viewEntry i.entry))
  | none => (m1, none)

/-- The `contentMsg` arm of `ui.Update`: `viewport.SetContent(msg)` and
clear `loading`, unconditionally. -/
def handleContentMsg (m : UIModel) (s : String) : UIModel :=
  { m with viewportContent := s, loading := false }

/-- The `backgroundSyncMsg` arm of `ui.Update`: set the pending counter to
the number of feeds and fan out one `syncFeed` job per feed. -/
def handleBackgroundSync (m : UIModel) (feeds : List Feed) :
    UIModel × List Cmd :=
  ({ m with syncPending := (feeds.length : Int) },
    feeds.map Cmd.syncFeedJob)

/-- The `feedSyncedMsg` arm of `ui.Update`: decrement the pending counter
and reload the feeds list. -/
def handleFeedSynced (m : UIModel) : UIModel × Option Cmd :=
  ({ m with syncPending := m.syncPending - 1 }, some Cmd.loadFeeds)

/-- The `errMsg` arm of `ui.Update`: render the error into the content pane
and clear `loading`.  It does not touch the pending-sync counter.
`rendered` stands for the styled error text. -/
def handleErrMsg (m : UIModel) (rendered : String) : UIModel :=
  { m with viewportContent := rendered, loading := false }

/-- The outcome message a `syncFeed` job emits (`ui.syncFeed`): a
`feedSyncedMsg` on success, an `errMsg` on failure. -/
inductive SyncOutcomeMsg where
  | feedSynced (feedID : Int)
  | errM (rendered : String)
deriving Repr, DecidableEq

/-- `ui.syncFeed(f)`: run `rss.SyncFeed` and report the outcome.  `ok`
abstracts whether the fetch-and-merge succeeded. -/
def syncFeedJobMsg (f : Feed) (ok : Bool) : SyncOutcomeMsg :=
  if ok then SyncOutcomeMsg.feedSynced f.id else SyncOutcomeMsg.errM "Error"

/-- Processing one sync-job outcome message through `ui.Update`, restricted
to its effect on the model (dropping the returned command). -/
def stepSyncOutcome (m : UIModel) : SyncOutcomeMsg → UIModel
  | .feedSynced _ => (handleFeedSynced m).1
  | .errM rendered => handleErrMsg m rendered

/-- Serially consuming a list of sync-job outcome messages, as the single
event loop does. -/
def runSyncOutcomes (m : UIModel) (msgs : List SyncOutcomeMsg) : UIModel :=
  msgs.foldl stepSyncOutcome m

/-! ### Concrete sample data used by witnesses and counterexamples -/

/-- A stored feed at position 0. -/
def sampleFeedA : Feed :=
  { id := 1, url := "https://a.example/feed", title := "A", description := ""
    lastReadAt := 0, position := 0 }

/-- A stored feed at position 1. -/
def sampleFeedB : Feed :=
  { id := 2, url := "https://b.example/feed", title := "B", description := ""
    lastReadAt := 0, position := 1 }

/-- A stored feed sharing position 0 with `sampleFeedA` (the degenerate
freshly-migrated state). -/
def sampleFeedC : Feed :=
  { id := 3, url := "https://c.example/feed", title := "C", description := ""
    lastReadAt := 0, position := 0 }

/-- A controller state after the initial load: feed B selected as current,
entries pane empty, nothing pending. -/
def sampleModel : UIModel :=
  { activePane := Pane.feeds
    feedsList := { items := [sampleFeedA, sampleFeedB], cursor := 0 }
    entriesList := { items := [], cursor := 0 }
    viewportContent := ""
    currentFeed := sampleFeedB
    loading := false
    initialLoadDone := true
    syncPending := 0 }

/-- An entry belonging to feed 1 — stale relative to `sampleModel`, whose
current feed is feed 2. -/
def staleEntry : Entry :=
  { feedID := 1, title := "old", link := "https://a.example/1", description := ""
    content := "", publishedAt := 5, read := false }

/-- A remote item carrying a published timestamp. -/
def sampleItem : Item :=
  { title := "T", link := "https://a.example/1", description := "d"
    content := "c", publishedParsed := some 3, updatedParsed := none }

/-- A generic renderer that always fails, exercising `renderMarkdown`'s
error path. -/
def alwaysFailRender : String → Except Unit String :=
  fun _ => Except.error ()

/-- An outline with type "rss" but an empty `xmlUrl` attribute. -/
def rssNoUrlOutline : Outline :=
  Outline.mk "t" "t" "rss" "" "" []

/-! ## Theorems -/

/-- C2: the claim says a construct preceded by a backslash escape marker is
passed through verbatim, never replaced by a placeholder and never recorded
in the side table.  The code captures the escape marker in group 1 of the
regex but the replacement closure never consults it, so `\[caption\](url)`
is replaced by the placeholder `GLAMOURTOKEN0URL` and recorded in the side
table (with the trailing backslash of `caption\` kept inside the display
text).  This evaluates the tokenize stage at that failing input. -/
theorem c2_escaped_construct_is_tokenized :
    tokenize "\\[caption\\](url)" =
      ("GLAMOURTOKEN0URL",
        [("GLAMOURTOKEN0URL",
          { text := "caption\\", url := "url", isImage := false })]) ∧
    ("GLAMOURTOKEN0URL" : String) ≠ "\\[caption\\](url)" := by
  decide

/-- C5: the claim says every sync job's completion message, success or
failure, decrements the pending-sync counter by one, so the counter returns
to zero after all jobs complete.  In the code only `feedSyncedMsg`
decrements; a failed job reports `errMsg`, whose handler leaves the counter
alone.  Fanning out one job over one feed: a successful outcome brings the
counter back to 0, a failed outcome leaves it stuck at 1. -/
theorem c5_failed_job_leaks_pending_counter :
    (runSyncOutcomes (handleBackgroundSync sampleModel [sampleFeedA]).1
        [syncFeedJobMsg sampleFeedA true]).syncPending = 0 ∧
    (runSyncOutcomes (handleBackgroundSync sampleModel [sampleFeedA]).1
        [syncFeedJobMsg sampleFeedA false]).syncPending = 1 ∧
    (1 : Int) ≠ 0 := by
  decide

/-- C6 (counterexample): the claim says a completion message that no longer
matches the current selection is ignored.  Concretely: the current feed is
feed 2, yet an entries completion carrying an entry of feed 1 still replaces
the entries list, and a content completion still replaces the viewport. -/
theorem c6_stale_message_updates_panes :
    sampleModel.currentFeed.id = 2 ∧
    staleEntry.feedID ≠ sampleModel.currentFeed.id ∧
    (handleEntriesMsg sampleModel [staleEntry] 0).1.entriesList.items
      = [{ entry := staleEntry, feedLastReadAt := 0 }] ∧
    (handleEntriesMsg sampleModel [staleEntry] 0).1.entriesList.items
      ≠ sampleModel.entriesList.items ∧
    (handleContentMsg sampleModel "stale content").viewportContent
      = "stale content" ∧
    (handleContentMsg sampleModel "stale content").viewportContent
      ≠ sampleModel.viewportContent := by
  decide

/-- C6 (amended): the completion messages carry no staleness key and the
controller checks none: the `entriesMsg` handler replaces the entries list
with the message's entries and the `contentMsg` handler replaces the content
pane with the message's text, unconditionally, whatever the current
selection is. -/
theorem c6_completions_applied_unconditionally (m : UIModel)
    (entries : List Entry) (lastReadAt : Int) (s : String) :
    (handleEntriesMsg m entries lastReadAt).1.entriesList.items
      = entries.map (fun e => EntryItem.mk e lastReadAt) ∧
    (handleContentMsg m s).viewportContent = s := by
  refine ⟨?_, rfl⟩
  unfold handleEntriesMsg
  dsimp only
  split <;> rfl

/-- C7 (counterexample): the claim says that when the generic renderer
fails, `renderMarkdown` returns the original input text unchanged.  But the
error path returns the `md` variable after the linked-image normalisation
pass reassigned it: on input `[![Alt](https://x/img.png)](https://x/page)`
with a failing renderer the result is the rewritten `![Alt](https://x/page)`,
not the original text. -/
theorem c7_render_error_returns_rewritten_text :
    renderMarkdown alwaysFailRender id "[![Alt](https://x/img.png)](https://x/page)"
      = "![Alt](https://x/page)" ∧
    ("![Alt](https://x/page)" : String) ≠ "[![Alt](https://x/img.png)](https://x/page)" := by
  decide

/-- C7 (amended): if the generic renderer invocation inside `renderMarkdown`
returns an error, `renderMarkdown` returns the input as it stands after the
compound image-link normalisation pass — which is the original text whenever
no linked-image construct occurs — rather than propagating the error. -/
theorem c7_render_error_returns_normalized (render : String → Except Unit String)
    (style : String → String) (md : String)
    (h : render (tokenize (normalizeLinkedImages md)).1 = Except.error ()) :
    renderMarkdown render style md = normalizeLinkedImages md := by
  unfold renderMarkdown
  dsimp only
  rw [h]

/-- Witness for C7 (amended) at a concrete failing renderer and input. -/
theorem c7_render_error_returns_normalized_witness :
    alwaysFailRender (tokenize (normalizeLinkedImages "hello [a](b)")).1
      = Except.error () ∧
    renderMarkdown alwaysFailRender id "hello [a](b)"
      = normalizeLinkedImages "hello [a](b)" :=
  ⟨rfl, c7_render_error_returns_normalized alwaysFailRender id "hello [a](b)" rfl⟩

/-- C8: a feed-sync completion reloads the feeds list via `loadFeeds`, whose
message carries index `-1`; processing that message replaces the list items
but moves neither the feeds-list cursor nor the active pane. -/
theorem c8_sync_refresh_preserves_selection (m : UIModel) (feeds : List Feed) :
    (handleFeedSynced m).2 = some Cmd.loadFeeds ∧
    ((handleFeedsMsg m (loadFeedsMsg feeds).1 (loadFeedsMsg feeds).2).1).feedsList.cursor
      = m.feedsList.cursor ∧
    ((handleFeedsMsg m (loadFeedsMsg feeds).1 (loadFeedsMsg feeds).2).1).activePane
      = m.activePane ∧
    ((handleFeedsMsg m (loadFeedsMsg feeds).1 (loadFeedsMsg feeds).2).1).feedsList.items
      = feeds := by
  have hneg : ¬(0 ≤ (-1 : Int) ∧ (-1 : Int) < (feeds.length : Int)) := by omega
  refine ⟨rfl, ?_, ?_, ?_⟩ <;>
  · unfold handleFeedsMsg loadFeedsMsg setItems
    dsimp only
    rw [if_neg hneg]
    split
    · split <;> rfl
    · rfl

mutual

theorem flattenOutline_eq_filter (o : Outline) :
    flattenOutline o = (preorderOutline o).filter keepOutline := by
  cases o with
  | mk text title typ xmlUrl htmlUrl os =>
    simp only [flattenOutline, preorderOutline, List.filter_cons,
      flattenOutlines_eq_filter os]
    by_cases h : keepOutline (Outline.mk text title typ xmlUrl htmlUrl os) <;>
      simp [h]

theorem flattenOutlines_eq_filter (l : List Outline) :
    flattenOutlines l = (preorderOutlines l).filter keepOutline := by
  cases l with
  | nil => simp only [flattenOutlines, preorderOutlines, List.filter_nil]
  | cons o os =>
    simp only [flattenOutlines, preorderOutlines, List.filter_append,
      flattenOutline_eq_filter o, flattenOutlines_eq_filter os]

end

/-- C9 (counterexample): the claim says every outline returned by `Flatten`
has a non-empty `xmlUrl`.  The keep condition is
`out.Type == "rss" || out.XMLURL != ""`, so an outline whose type is "rss"
but whose `xmlUrl` is empty appears in the result. -/
theorem c9_result_outline_may_lack_url :
    rssNoUrlOutline ∈ Flatten [rssNoUrlOutline] ∧
    rssNoUrlOutline.xmlUrl = "" := by
  constructor
  · simp [Flatten, flattenOutlines, flattenOutline, keepOutline,
      rssNoUrlOutline, Outline.typ, Outline.xmlUrl]
  · rfl

/-- C9 (amended): `Flatten` returns exactly those outlines of the body, at
any nesting depth and in depth-first preorder, whose type attribute is
"rss" or whose `xmlUrl` attribute is non-empty. -/
theorem c9_flatten_eq_preorder_filter (body : List Outline) :
    Flatten body = (preorderOutlines body).filter keepOutline := by
  rw [Flatten]
  exact flattenOutlines_eq_filter body

theorem linkPresent_iff (t : List Entry) (l : String) :
    linkPresent t l = true ↔ l ∈ entryLinks t := by
  unfold linkPresent entryLinks
  rw [List.any_eq_true]
  constructor
  · rintro ⟨e, he, heq⟩
    exact List.mem_map.mpr ⟨e, he, by simpa using heq⟩
  · intro hm
    rcases List.mem_map.mp hm with ⟨e, he, rfl⟩
    exact ⟨e, he, by simp⟩

theorem insertEntryRow_of_present {t : List Entry} {fid : Int} {e : Entry}
    (h : linkPresent t e.link = true) : insertEntryRow t fid e = t := by
  unfold insertEntryRow
  rw [if_pos h]

theorem entryLinks_append (t₁ t₂ : List Entry) :
    entryLinks (t₁ ++ t₂) = entryLinks t₁ ++ entryLinks t₂ := by
  simp [entryLinks]

theorem mem_entryLinks_insertEntryRow {l : String} (t : List Entry) (fid : Int)
    (e : Entry) (h : l ∈ entryLinks t) :
    l ∈ entryLinks (insertEntryRow t fid e) := by
  unfold insertEntryRow
  split
  · exact h
  · rw [entryLinks_append]
    exact List.mem_append_left _ h

theorem self_mem_entryLinks_insertEntryRow (t : List Entry) (fid : Int) (e : Entry) :
    e.link ∈ entryLinks (insertEntryRow t fid e) := by
  unfold insertEntryRow
  split
  next h => exact (linkPresent_iff t e.link).mp h
  next h =>
    rw [entryLinks_append]
    apply List.mem_append_right
    simp [entryLinks]

theorem mem_links_saveEntries_of_mem {l : String} (fid : Int) (es : List Entry) :
    ∀ t, l ∈ entryLinks t → l ∈ entryLinks (saveEntries t fid es) := by
  induction es with
  | nil => intro t h; exact h
  | cons e es ih =>
    intro t h
    exact ih _ (mem_entryLinks_insertEntryRow t fid e h)

theorem link_mem_saveEntries (fid : Int) (es : List Entry) :
    ∀ t, ∀ e ∈ es, e.link ∈ entryLinks (saveEntries t fid es) := by
  induction es with
  | nil => intro t e he; cases he
  | cons e' es ih =>
    intro t e he
    rcases List.mem_cons.mp he with rfl | hmem
    · exact mem_links_saveEntries_of_mem fid es _
        (self_mem_entryLinks_insertEntryRow t fid e)
    · exact ih _ e hmem

theorem saveEntries_noop (fid : Int) (es : List Entry) :
    ∀ t, (∀ e ∈ es, linkPresent t e.link = true) → saveEntries t fid es = t := by
  induction es with
  | nil => intro t _; rfl
  | cons e es ih =>
    intro t h
    have h2 : insertEntryRow t fid e = t :=
      insertEntryRow_of_present (h e (List.mem_cons_self _ _))
    show saveEntries (insertEntryRow t fid e) fid es = t
    rw [h2]
    exact ih t (fun e' he' => h e' (List.mem_cons_of_mem _ he'))

theorem nodup_entryLinks_insertEntryRow (t : List Entry) (fid : Int) (e : Entry)
    (h : (entryLinks t).Nodup) :
    (entryLinks (insertEntryRow t fid e)).Nodup := by
  unfold insertEntryRow
  split
  next => exact h
  next hp =>
    have hnm : e.link ∉ entryLinks t := fun hm => hp ((linkPresent_iff t e.link).mpr hm)
    rw [entryLinks_append]
    refine List.Nodup.append h ?_ ?_
    · simp [entryLinks]
    · intro a ha hb
      have hb' : a = e.link := by simpa [entryLinks] using hb
      exact hnm (hb' ▸ ha)

theorem nodup_entryLinks_saveEntries (fid : Int) (es : List Entry) :
    ∀ t, (entryLinks t).Nodup → (entryLinks (saveEntries t fid es)).Nodup := by
  induction es with
  | nil => intro t h; exact h
  | cons e es ih =>
    intro t h
    exact ih _ (nodup_entryLinks_insertEntryRow t fid e h)

/-- C1: the sync-merge is idempotent over the entries table.  Starting from
a table whose links are pairwise distinct (the `link TEXT UNIQUE`
invariant), running `rss.SyncFeed`'s merge (`db.SaveEntries`, insert-or-
ignore keyed on the entry link) a second time with the same remote items —
even at a different wall-clock time, which only affects the publication
fallback — inserts nothing: the stored table is unchanged, and the stored
links remain pairwise distinct, so no duplicate entries ever arise.  The
model's `saveEntries` always commits, i.e. the second run reports no
error. -/
theorem c1_sync_merge_idempotent (t : List Entry) (fid : Int) (items : List Item)
    (now₁ now₂ : Int) (h : (entryLinks t).Nodup) :
    syncFeedMerge (syncFeedMerge t fid items now₁) fid items now₂
      = syncFeedMerge t fid items now₁ ∧
    (entryLinks (syncFeedMerge t fid items now₁)).Nodup := by
  constructor
  · unfold syncFeedMerge
    apply saveEntries_noop
    intro e he
    rcases List.mem_map.mp he with ⟨it, hit, rfl⟩
    apply (linkPresent_iff _ _).mpr
    have hsame : (itemToEntry now₂ it).link = (itemToEntry now₁ it).link := rfl
    rw [hsame]
    exact link_mem_saveEntries fid _ t _ (List.mem_map_of_mem _ hit)
  · exact nodup_entryLinks_saveEntries fid _ t h

/-- Witness for C1 at a concrete empty table and a single remote item. -/
theorem c1_sync_merge_idempotent_witness :
    (entryLinks ([] : List Entry)).Nodup ∧
    (syncFeedMerge (syncFeedMerge [] 1 [sampleItem] 0) 1 [sampleItem] 5
        = syncFeedMerge [] 1 [sampleItem] 0 ∧
      (entryLinks (syncFeedMerge [] 1 [sampleItem] 0)).Nodup) :=
  ⟨List.nodup_nil, c1_sync_merge_idempotent [] 1 [sampleItem] 0 5 List.nodup_nil⟩

theorem setPos_cons (f : Feed) (fs : List Feed) (i p : Int) :
    setPos (f :: fs) i p
      = (if f.id = i then { f with position := p } else f) :: setPos fs i p := rfl

theorem lookupPos_cons (f : Feed) (fs : List Feed) (i : Int) :
    lookupPos (f :: fs) i
      = if f.id = i then some f.position else lookupPos fs i := by
  unfold lookupPos
  by_cases h : f.id = i
  · rw [List.find?_cons_of_pos _ (by simp [h]), if_pos h]
    rfl
  · rw [List.find?_cons_of_neg _ (by simp [h]), if_neg h]

theorem lookupPos_setPos_self (t : List Feed) (i p : Int) :
    lookupPos (setPos t i p) i = (lookupPos t i).map (fun _ => p) := by
  induction t with
  | nil => rfl
  | cons f fs ih => by_cases h : f.id = i <;> simp [setPos_cons, lookupPos_cons, h, ih]

theorem lookupPos_setPos_other (t : List Feed) (i j p : Int) (h : j ≠ i) :
    lookupPos (setPos t i p) j = lookupPos t j := by
  induction t with
  | nil => rfl
  | cons f fs ih =>
    by_cases hf : f.id = i
    · have hfj : ¬f.id = j := by rw [hf]; exact fun e => h e.symm
      simp [setPos_cons, lookupPos_cons, hf, hfj, Ne.symm h, ih]
    · by_cases hfj : f.id = j
      · simp [setPos_cons, lookupPos_cons, hf, hfj, h, ih]
      · simp [setPos_cons, lookupPos_cons, hf, hfj, ih]

theorem reorderMove_of_ne (t : List Feed) (a b idx nIdx pa pb : Int)
    (hpa : lookupPos t a = some pa) (hpb : lookupPos t b = some pb)
    (hne : pa ≠ pb) :
    reorderMove t a b idx nIdx = setPos (setPos t a pb) b pa := by
  unfold reorderMove swapFeedPositions
  rw [hpa, hpb]
  simp only [Option.getD_some]
  rw [if_neg hne]

theorem pos_eq_of_lookupPos (t : List Feed) (i pa : Int)
    (hids : (t.map Feed.id).Nodup) (hlk : lookupPos t i = some pa) :
    ∀ f ∈ t, f.id = i → f.position = pa := by
  intro f hf hfi
  unfold lookupPos at hlk
  rcases Option.map_eq_some'.mp hlk with ⟨fa, hfind, hpos⟩
  have hfa_mem : fa ∈ t := List.mem_of_find?_eq_some hfind
  have hfa_id : fa.id = i := by simpa using List.find?_some hfind
  have : f = fa :=
    List.inj_on_of_nodup_map hids hf hfa_mem (by rw [hfi, hfa_id])
  rw [this, hpos]

theorem map_fixes_eq_self {α : Type} (l : List α) (f : α → α)
    (h : ∀ a ∈ l, f a = a) : l.map f = l := by
  induction l with
  | nil => rfl
  | cons x xs ih =>
    rw [List.map_cons, h x (List.mem_cons_self _ _),
      ih (fun a ha => h a (List.mem_cons_of_mem _ ha))]

theorem setPos_setPos_restore (a b pa pb : Int) (hab : a ≠ b) :
    ∀ t : List Feed, (∀ f ∈ t, f.id = a → f.position = pa) →
      (∀ f ∈ t, f.id = b → f.position = pb) →
      setPos (setPos (setPos (setPos t a pb) b pa) a pa) b pb = t := by
  intro t
  induction t with
  | nil => intro _ _; rfl
  | cons f fs ih =>
    intro ha hb
    rw [setPos_cons, setPos_cons, setPos_cons, setPos_cons,
      ih (fun g hg => ha g (List.mem_cons_of_mem _ hg))
        (fun g hg => hb g (List.mem_cons_of_mem _ hg))]
    congr 1
    have hmem := List.mem_cons_self f fs
    by_cases hfa : f.id = a
    · have hpa' : f.position = pa := ha f hmem hfa
      have hfb : ¬f.id = b := by rw [hfa]; exact hab
      obtain ⟨fid, furl, ftitle, fdesc, flra, fpos⟩ := f
      dsimp only at hfa hpa' hfb
      subst hfa
      subst hpa'
      simp [hfb]
    · by_cases hfb : f.id = b
      · have hpb' : f.position = pb := hb f hmem hfb
        obtain ⟨fid, furl, ftitle, fdesc, flra, fpos⟩ := f
        dsimp only at hfa hpb' hfb
        subst hfb
        subst hpb'
        simp [hfa]
      · obtain ⟨fid, furl, ftitle, fdesc, flra, fpos⟩ := f
        dsimp only at hfa hfb
        simp [hfa, hfb]

/-- C3: the manual reorder's position swap is an involution.  For two
distinct stored feeds `a` (the selected one) and `b` (its neighbour) whose
stored positions differ, performing the reorder operation twice — move-down
then move-up, or the same swap twice, at whatever list indices the two rows
then occupy — restores the feeds table exactly, and with it the display
order derived from it. -/
theorem c3_reorder_involution (t : List Feed) (a b idx nIdx idx' nIdx' pa pb : Int)
    (hids : (t.map Feed.id).Nodup) (hab : a ≠ b)
    (hpa : lookupPos t a = some pa) (hpb : lookupPos t b = some pb)
    (hne : pa ≠ pb) :
    reorderMove (reorderMove t a b idx nIdx) a b idx' nIdx' = t := by
  have h1 : reorderMove t a b idx nIdx = setPos (setPos t a pb) b pa :=
    reorderMove_of_ne t a b idx nIdx pa pb hpa hpb hne
  have hpa1 : lookupPos (setPos (setPos t a pb) b pa) a = some pb := by
    rw [lookupPos_setPos_other _ _ _ _ hab, lookupPos_setPos_self, hpa]
    rfl
  have hpb1 : lookupPos (setPos (setPos t a pb) b pa) b = some pa := by
    rw [lookupPos_setPos_self, lookupPos_setPos_other _ _ _ _ (Ne.symm hab), hpb]
    rfl
  have h2 : reorderMove (setPos (setPos t a pb) b pa) a b idx' nIdx'
      = setPos (setPos (setPos (setPos t a pb) b pa) a pa) b pb :=
    reorderMove_of_ne _ a b idx' nIdx' pb pa hpa1 hpb1 (Ne.symm hne)
  rw [h1, h2]
  exact setPos_setPos_restore a b pa pb hab t
    (pos_eq_of_lookupPos t a pa hids hpa)
    (pos_eq_of_lookupPos t b pb hids hpb)

/-- Witness for C3: feeds A (id 1, position 0) and B (id 2, position 1);
B is selected at index 1 and moved up past A, then moved back down. -/
theorem c3_reorder_involution_witness :
    (([sampleFeedA, sampleFeedB].map Feed.id).Nodup ∧ (2 : Int) ≠ 1 ∧
      lookupPos [sampleFeedA, sampleFeedB] 2 = some 1 ∧
      lookupPos [sampleFeedA, sampleFeedB] 1 = some 0 ∧ (1 : Int) ≠ 0) ∧
    reorderMove (reorderMove [sampleFeedA, sampleFeedB] 2 1 1 0) 2 1 0 1
      = [sampleFeedA, sampleFeedB] :=
  ⟨⟨by decide, by decide, by decide, by decide, by decide⟩,
    c3_reorder_involution [sampleFeedA, sampleFeedB] 2 1 1 0 0 1 1 0
      (by decide) (by decide) (by decide) (by decide) (by decide)⟩

/-- C4: degenerate-position repair.  When the selected feed `a` at list
index `idx` and its adjacent neighbour `b` at index `nIdx` carry the same
stored position, one reorder operation synthesises positions from the list
indices and swaps them: afterwards `a` is stored at position `nIdx` (the
side it was moved to) and `b` at position `idx`, two distinct values that
order the pair as the move requested (`nIdx < idx` for move-up places `a`
before `b`; `nIdx > idx` for move-down places `a` after `b`). -/
theorem c4_degenerate_position_repair (t : List Feed) (a b idx nIdx p : Int)
    (hab : a ≠ b)
    (hpa : lookupPos t a = some p) (hpb : lookupPos t b = some p)
    (hadj : nIdx = idx - 1 ∨ nIdx = idx + 1) :
    lookupPos (reorderMove t a b idx nIdx) a = some nIdx ∧
    lookupPos (reorderMove t a b idx nIdx) b = some idx ∧
    nIdx ≠ idx := by
  have hmove : reorderMove t a b idx nIdx = setPos (setPos t a nIdx) b idx := by
    unfold reorderMove swapFeedPositions
    rw [hpa, hpb]
    simp only [Option.getD_some, if_pos rfl, if_true]
  refine ⟨?_, ?_, by omega⟩
  · rw [hmove, lookupPos_setPos_other _ _ _ _ hab, lookupPos_setPos_self, hpa]
    rfl
  · rw [hmove, lookupPos_setPos_self, lookupPos_setPos_other _ _ _ _ (Ne.symm hab), hpb]
    rfl

/-- Witness for C4: feeds A (id 1) and C (id 3) both stored at position 0;
A is selected at index 0 and moved down past C at index 1. -/
theorem c4_degenerate_position_repair_witness :
    ((1 : Int) ≠ 3 ∧
      lookupPos [sampleFeedA, sampleFeedC] 1 = some 0 ∧
      lookupPos [sampleFeedA, sampleFeedC] 3 = some 0 ∧
      ((1 : Int) = 0 - 1 ∨ (1 : Int) = 0 + 1)) ∧
    (lookupPos (reorderMove [sampleFeedA, sampleFeedC] 1 3 0 1) 1 = some 1 ∧
      lookupPos (reorderMove [sampleFeedA, sampleFeedC] 1 3 0 1) 3 = some 0 ∧
      (1 : Int) ≠ 0) :=
  ⟨⟨by decide, by decide, by decide, by decide⟩,
    c4_degenerate_position_repair [sampleFeedA, sampleFeedC] 1 3 0 1 0
      (by decide) (by decide) (by decide) (by decide)⟩

theorem le_foldl_max_position (gs : List Feed) :
    ∀ init : Int, init ≤ gs.foldl (fun acc g => max acc g.position) init := by
  induction gs with
  | nil => intro init; exact le_refl _
  | cons g gs ih =>
    intro init
    exact le_trans (le_max_left _ _) (ih (max init g.position))

theorem mem_le_foldl_max_position (gs : List Feed) :
    ∀ (init : Int), ∀ f ∈ gs,
      f.position ≤ gs.foldl (fun acc g => max acc g.position) init := by
  induction gs with
  | nil => intro init f hf; cases hf
  | cons g gs ih =>
    intro init f hf
    rcases List.mem_cons.mp hf with rfl | hmem
    · exact le_trans (le_max_right init f.position) (le_foldl_max_position gs _)
    · exact ih _ f hmem

theorem mem_le_maxPosition (t : List Feed) (f : Feed) (hf : f ∈ t) :
    f.position ≤ maxPosition t := by
  cases t with
  | nil => cases hf
  | cons g gs =>
    show f.position ≤ gs.foldl (fun acc g => max acc g.position) g.position
    rcases List.mem_cons.mp hf with rfl | hmem
    · exact le_foldl_max_position gs f.position
    · exact mem_le_foldl_max_position gs g.position f hmem

/-- C10: when the url is not yet stored, `db.AddFeed` appends a row whose
position is `COALESCE(MAX(position), -1) + 1` — one more than the maximum
stored position, hence 0 on an empty table — so the new row's position
strictly dominates every stored one, and under `GetFeeds`' ordering
(`ORDER BY position ASC, title ASC`) any sorted arrangement of the
resulting table puts the new feed last. -/
theorem c10_addFeed_appends_last (t : List Feed) (newId : Int)
    (url title desc : String) (h : urlExists t url = false) :
    addFeed t newId url title desc = t ++ [newFeedRow t newId url title desc] ∧
    (newFeedRow t newId url title desc).position = maxPosition t + 1 ∧
    (∀ f ∈ t, f.position < (newFeedRow t newId url title desc).position) ∧
    (∀ l : List Feed, l.Perm (addFeed t newId url title desc) →
      l.Sorted feedLE → l.getLast? = some (newFeedRow t newId url title desc)) := by
  have h1 : addFeed t newId url title desc
      = t ++ [newFeedRow t newId url title desc] := by
    unfold addFeed
    rw [h]
    rfl
  have h3 : ∀ f ∈ t, f.position < (newFeedRow t newId url title desc).position := by
    intro f hf
    have := mem_le_maxPosition t f hf
    show f.position < maxPosition t + 1
    omega
  refine ⟨h1, rfl, h3, ?_⟩
  intro l hperm hsort
  rw [h1] at hperm
  have hnf_mem : newFeedRow t newId url title desc ∈ l :=
    hperm.mem_iff.mpr (List.mem_append_right _ (List.mem_singleton_self _))
  rcases List.eq_nil_or_concat' l with rfl | ⟨L, x, rfl⟩
  · cases hnf_mem
  · rw [List.getLast?_concat]
    by_contra hxne
    have hx_ne : x ≠ newFeedRow t newId url title desc := by
      intro e
      exact hxne (by rw [e])
    have hx_mem : x ∈ t ++ [newFeedRow t newId url title desc] :=
      hperm.subset (List.mem_append_right _ (List.mem_singleton_self _))
    have hx_t : x ∈ t := by
      rcases List.mem_append.mp hx_mem with hxt | hxs
      · exact hxt
      · exact absurd (List.mem_singleton.mp hxs) hx_ne
    have hnf_L : newFeedRow t newId url title desc ∈ L := by
      rcases List.mem_append.mp hnf_mem with hL | hs
      · exact hL
      · exact absurd (List.mem_singleton.mp hs).symm hx_ne
    have hle : feedLE (newFeedRow t newId url title desc) x := by
      have hp := (List.pairwise_append.mp hsort).2.2
      exact hp _ hnf_L x (List.mem_singleton_self _)
    have hlt : x.position < (newFeedRow t newId url title desc).position :=
      h3 x hx_t
    rcases hle with hlt' | ⟨heq, _⟩
    · omega
    · omega

/-- Witness for C10: adding a fresh url to a table holding feeds A and B. -/
theorem c10_addFeed_appends_last_witness :
    urlExists [sampleFeedA, sampleFeedB] "https://new.example/feed" = false ∧
    (addFeed [sampleFeedA, sampleFeedB] 7 "https://new.example/feed" "N" ""
        = [sampleFeedA, sampleFeedB]
          ++ [newFeedRow [sampleFeedA, sampleFeedB] 7 "https://new.example/feed" "N" ""] ∧
      (newFeedRow [sampleFeedA, sampleFeedB] 7 "https://new.example/feed" "N" "").position
        = maxPosition [sampleFeedA, sampleFeedB] + 1 ∧
      (∀ f ∈ [sampleFeedA, sampleFeedB], f.position
        < (newFeedRow [sampleFeedA, sampleFeedB] 7 "https://new.example/feed" "N" "").position) ∧
      (∀ l : List Feed,
        l.Perm (addFeed [sampleFeedA, sampleFeedB] 7 "https://new.example/feed" "N" "") →
        l.Sorted feedLE →
        l.getLast? = some (newFeedRow [sampleFeedA, sampleFeedB] 7 "https://new.example/feed" "N" ""))) :=
  ⟨by decide,
    c10_addFeed_appends_last [sampleFeedA, sampleFeedB] 7 "https://new.example/feed" "N" ""
      (by decide)⟩

end LazyRSS
